import Mathlib

/-!
# Verification of the `eo_listener` event-watermark polling engine

Shallow embedding of `src/lib.rs` of the `eo_listener` repository.

Modelling conventions:
* `web3::types::U64` block numbers carry no arithmetic in the source (only
  comparison and assignment), so they are embedded as `Nat`.
* `web3::types::BlockNumber` is the source enum (`Number`, `Latest`,
  `Earliest`, `Pending`, `Safe`, `Finalized`); only `Number` vs. the rest is
  ever distinguished by the source (`inner_block_processed`,
  `block_processed`).
* `H256` is 32 raw bytes, embedded as a list of naturals (< 256 at use
  sites).
* `web3::ethabi::Event::parse_log` is an external collaborator (the `ethabi`
  crate); it is embedded as a field `parse_log` of the `EventAbi` structure:
  a function from a raw log (topics + data, exactly what the source passes)
  to a `ParsedLog` or an error string.  The handlers under verification are
  parametric in it, exactly as the source methods are parametric in the
  `event_abi: &web3::ethabi::Event` argument.
* The Rust `EoServer` struct also holds external collaborator handles
  (`web3` transport, `contract`, the two query `Filter`s, the `EoAddress`)
  and the two immutable ABI events which the handlers receive explicitly as
  arguments; the only field that the batch-handling methods read or write is
  `last_processed_block`, so the embedded state carries exactly that field.
* `sha3::Keccak256` is the external hash collaborator; it is embedded as an
  executable implementation of standard Keccak-256 (rate 1088, Keccak
  `0x01` domain padding), checked below against the published digest of the
  empty message.
* Rust panics (out-of-bounds slice/index) are embedded as `Option.none`.
-/

/-! ## Data model -/

/-- 32-byte word (`web3::types::H256`): the raw bytes of a topic. -/
structure H256 where
  val : List Nat
deriving DecidableEq, Repr

/-- `H256::from(res: [u8; 32])`: wrap the 32 digest bytes verbatim. -/
def H256.fromBytes (bs : List Nat) : H256 := ⟨bs⟩

/-- `web3::types::BlockNumber` (the source only ever distinguishes
`Number(_)` from every other constructor). -/
inductive BlockNumber where
  | number (bn : Nat)
  | latest
  | earliest
  | pending
  | safe
  | finalized
deriving DecidableEq, Repr

/-- The fields of `web3::types::Log` that `handle_bridge_event` /
`handle_settlement_event` / `parse_bridge_event` / `parse_settlement_event`
read: `block_number` (an `Option<U64>`), `topics` and `data.0`. -/
structure Log where
  topics : List H256
  data : List Nat
  block_number : Option Nat
deriving DecidableEq, Repr

/-- `web3::ethabi::Token`: a decoded field value (the constructors relevant
to the two watched events). -/
inductive Token where
  | address (a : List Nat)
  | uint (n : Nat)
  | fixedBytes (b : List Nat)
  | str (s : String)
deriving DecidableEq, Repr

/-- `web3::ethabi::LogParam`: one named, typed decoded field. -/
structure LogParam where
  name : String
  value : Token
deriving DecidableEq, Repr

/-- `web3::ethabi::Log` (imported as `ParsedLog` in the source): the decoded
event, a sequence of named params. -/
structure ParsedLog where
  params : List LogParam
deriving DecidableEq, Repr

/-- `web3::ethabi::RawLog`: exactly the two fields the source builds from a
`web3::types::Log` before handing it to the decoder. -/
structure RawLog where
  topics : List H256
  data : List Nat
deriving DecidableEq, Repr

/-- The external ABI decoder collaborator (`web3::ethabi::Event`): the
handlers only ever call its `parse_log` method on a `RawLog`, obtaining a
`ParsedLog` or an error (whose `to_string()` the source keeps). -/
structure EventAbi where
  parse_log : RawLog → Except String ParsedLog

/-- `EoServerError` from the source: a single `Other(String)` constructor. -/
inductive EoServerError where
  | other (s : String)
deriving DecidableEq, Repr

/-- `web3::Error`, opaque transport error (only its presence matters). -/
structure Web3Error where
  msg : String
deriving DecidableEq, Repr

/-- The mutable state of the source `EoServer` that the batch handlers touch:
its single `last_processed_block: BlockNumber` field.  (The remaining Rust
fields are external collaborator handles — transport, contract, filters —
and the immutable ABI events, which the handlers receive as arguments.) -/
structure EoServer where
  last_processed_block : BlockNumber
deriving DecidableEq, Repr

/-! ## The watermark accessors (`inner_block_processed`, `block_processed`) -/

/-- `EoServer::inner_block_processed`: the watermark as an integer —
`bn` when `last_processed_block` is `Number(bn)`, else `U64::from(0)`. -/
def EoServer.inner_block_processed (self : EoServer) : Nat :=
  match self.last_processed_block with
  | .number bn => bn
  | _ => 0

/-- `EoServer::block_processed`: `block_number <= bn` when the watermark is
`Number(bn)`, else `false`. -/
def EoServer.block_processed (self : EoServer) (block_number : Nat) : Bool :=
  match self.last_processed_block with
  | .number bn => decide (block_number ≤ bn)
  | _ => false

/-! ## The decoders (`parse_bridge_event`, `parse_settlement_event`) -/

/-- `EoServer::parse_bridge_event`: hand `RawLog { topics, data }` to the
ABI decoder, mapping a decode error `e` to `EoServerError::Other(e)`. -/
def EoServer.parse_bridge_event (_self : EoServer) (event : Log)
    (event_abi : EventAbi) : Except EoServerError ParsedLog :=
  match event_abi.parse_log { topics := event.topics, data := event.data } with
  | .ok parsed_log => .ok parsed_log
  | .error e => .error (.other e)

/-- `EoServer::parse_settlement_event`: same body as `parse_bridge_event`
(the source duplicates it verbatim). -/
def EoServer.parse_settlement_event (_self : EoServer) (event : Log)
    (event_abi : EventAbi) : Except EoServerError ParsedLog :=
  match event_abi.parse_log { topics := event.topics, data := event.data } with
  | .ok parsed_log => .ok parsed_log
  | .error e => .error (.other e)

/-! ## The batch handlers

The Rust methods take `&mut self`, mutate `self.last_processed_block` once
(after the loop) and return `Result<Vec<ParsedLog>, EoServerError>`; an
early `?` return leaves `self` untouched.  They are embedded as functions
returning the post-state together with the `Result`: on every error path the
returned state is the input state, mirroring the untouched `&mut self`. -/

/-- The `for event in events` loop of `handle_bridge_event`, carrying the
`parsed_logs` and `highest_block` accumulators.  `self` is read-only during
the loop (the single write happens after it, in the `[]` case). -/
def EoServer.bridgeLoop (self : EoServer) (event_abi : EventAbi) :
    List Log → List ParsedLog → Nat →
    EoServer × Except EoServerError (List ParsedLog)
  | [], parsed_logs, highest_block =>
    ({ self with last_processed_block := .number highest_block },
      .ok parsed_logs)
  | event :: rest, parsed_logs, highest_block =>
    match event.block_number with
    | none => (self, .error (.other "Log missing block number"))
    | some block_number =>
      if self.block_processed block_number then
        self.bridgeLoop event_abi rest parsed_logs highest_block
      else
        match self.parse_bridge_event event event_abi with
        | .error e => (self, .error e)
        | .ok log =>
          self.bridgeLoop event_abi rest (parsed_logs ++ [log])
            (if highest_block < block_number then block_number
             else highest_block)

/-- `EoServer::handle_bridge_event`: run the loop from `parsed_logs = []`
and `highest_block = inner_block_processed()`. -/
def EoServer.handle_bridge_event (self : EoServer) (events : List Log)
    (event_abi : EventAbi) :
    EoServer × Except EoServerError (List ParsedLog) :=
  self.bridgeLoop event_abi events [] self.inner_block_processed

/-- The `for event in events` loop of `handle_settlement_event`.  Note the
faithful difference from `bridgeLoop`: the parsed log is bound and dropped —
the source never pushes it into `parsed_logs` (and its debug print even says
"parsing bridge event"), so the accumulator stays as it started. -/
def EoServer.settlementLoop (self : EoServer) (event_abi : EventAbi) :
    List Log → List ParsedLog → Nat →
    EoServer × Except EoServerError (List ParsedLog)
  | [], parsed_logs, highest_block =>
    ({ self with last_processed_block := .number highest_block },
      .ok parsed_logs)
  | event :: rest, parsed_logs, highest_block =>
    match event.block_number with
    | none => (self, .error (.other "Log missing block number"))
    | some block_number =>
      if self.block_processed block_number then
        self.settlementLoop event_abi rest parsed_logs highest_block
      else
        match self.parse_settlement_event event event_abi with
        | .error e => (self, .error e)
        | .ok _log =>
          self.settlementLoop event_abi rest parsed_logs
            (if highest_block < block_number then block_number
             else highest_block)

/-- `EoServer::handle_settlement_event`. -/
def EoServer.handle_settlement_event (self : EoServer) (events : List Log)
    (event_abi : EventAbi) :
    EoServer × Except EoServerError (List ParsedLog) :=
  self.settlementLoop event_abi events [] self.inner_block_processed

/-- The `log_handler!` macro: absorb a transport error into zero logs. -/
def log_handler : Except Web3Error (List Log) → List Log
  | .ok l => l
  | .error _ => []

/-- `EventType` from the source (each variant carries its ABI event). -/
inductive EventType where
  | bridge (abi : EventAbi)
  | settlement (abi : EventAbi)

/-- `EoServer::process_logs`: absorb transport errors via the handler, then
dispatch on the event type. -/
def EoServer.process_logs (self : EoServer) (event_type : EventType)
    (logs : Except Web3Error (List Log)) :
    EoServer × Except EoServerError (List ParsedLog) :=
  let events := log_handler logs
  match event_type with
  | .bridge event_abi => self.handle_bridge_event events event_abi
  | .settlement event_abi => self.handle_settlement_event events event_abi

/-! ## Keccak-256 (the `sha3::Keccak256` collaborator)

Executable standard Keccak-256: 5×5 state of 64-bit lanes (embedded as
naturals below `2^64`, index `x + 5*y`), 24-round permutation, rate 136
bytes, original Keccak `0x01` domain padding.  Checked below against the
published digest of the empty message. -/

/-- Left-rotation of a 64-bit lane. -/
def rotl64 (n r : Nat) : Nat :=
  ((n <<< r) % 2 ^ 64) ||| (n >>> (64 - r))

/-- Bitwise complement of a 64-bit lane. -/
def not64 (n : Nat) : Nat := n.xor (2 ^ 64 - 1)

/-- One step of the degree-8 LFSR (polynomial x^8 + x^6 + x^5 + x^4 + 1)
that generates the iota round constants: output bit and next state (the
state stays below 256). -/
def keccakLFSR (r : Nat) : Bool × Nat :=
  (r % 2 = 1, if 128 ≤ r then (2 * r).xor 0x71 % 256 else 2 * r)

/-- Fold the first `j` LFSR output bits from state `r` into a round
constant — bit `j` lands at position `2^j - 1` — returning it with the
advanced LFSR state. -/
def keccakRCFrom (r : Nat) : Nat → Nat × Nat
  | 0 => (0, r)
  | j + 1 =>
    let p := keccakRCFrom r j
    let s := keccakLFSR p.2
    (if s.1 then p.1 + 2 ^ (2 ^ j - 1) else p.1, s.2)

/-- `n` successive round constants (seven LFSR bits each) from state `r`. -/
def keccakRCGen (r : Nat) : Nat → List Nat
  | 0 => []
  | n + 1 =>
    let p := keccakRCFrom r 7
    p.1 :: keccakRCGen p.2 n

/-- The 24 Keccak-f[1600] round constants, generated from LFSR state 1. -/
def keccakRC : List Nat := keccakRCGen 1 24

/-- The rho/pi coordinate walk of the Keccak reference: starting at (1, 0),
step `(x, y) ↦ (y, (2x + 3y) mod 5)`, assigning rotation `(t+1)(t+2)/2 mod
64` at step `t`; emits `(x + 5y, rotation)` pairs. -/
def keccakRhoWalk : Nat → Nat → Nat → Nat → List (Nat × Nat)
  | 0, _, _, _ => []
  | n + 1, t, x, y =>
    (x + 5 * y, (t + 1) * (t + 2) / 2 % 64)
      :: keccakRhoWalk n (t + 1) y ((2 * x + 3 * y) % 5)

/-- The rho rotation offsets indexed `x + 5*y` (lane (0, 0) rotates by 0). -/
def keccakRho : List Nat :=
  (List.range 25).map fun j => (((keccakRhoWalk 24 0 1 0).lookup j).getD 0)

/-- Lane `(x, y)` of the state (coordinates taken mod 5). -/
def lane (s : List Nat) (x y : Nat) : Nat :=
  s.getD (x % 5 + 5 * (y % 5)) 0

/-- Theta step. -/
def keccakTheta (s : List Nat) : List Nat :=
  let C := (List.range 5).map fun x =>
    (lane s x 0).xor ((lane s x 1).xor ((lane s x 2).xor
      ((lane s x 3).xor (lane s x 4))))
  let D := (List.range 5).map fun x =>
    (C.getD ((x + 4) % 5) 0).xor (rotl64 (C.getD ((x + 1) % 5) 0) 1)
  (List.range 25).map fun i => (s.getD i 0).xor (D.getD (i % 5) 0)

/-- Rho and pi steps: the lane written at `(X, Y)` is the lane at
`(x, y) = ((X + 3*Y) % 5, X)` rotated by its rho offset. -/
def keccakRhoPi (s : List Nat) : List Nat :=
  (List.range 25).map fun j =>
    let X := j % 5
    let Y := j / 5
    let x := (X + 3 * Y) % 5
    let y := X
    rotl64 (lane s x y) (keccakRho.getD (x % 5 + 5 * (y % 5)) 0)

/-- Chi step. -/
def keccakChi (s : List Nat) : List Nat :=
  (List.range 25).map fun j =>
    let X := j % 5
    let Y := j / 5
    (lane s X Y).xor ((not64 (lane s (X + 1) Y)).land (lane s (X + 2) Y))

/-- Iota step: xor the round constant into lane (0, 0). -/
def keccakIota (s : List Nat) (rc : Nat) : List Nat :=
  match s with
  | [] => []
  | a :: rest => a.xor rc :: rest

/-- One Keccak-f round. -/
def keccakRound (s : List Nat) (rc : Nat) : List Nat :=
  keccakIota (keccakChi (keccakRhoPi (keccakTheta s))) rc

/-- The full Keccak-f[1600] permutation (24 rounds). -/
def keccakF (s : List Nat) : List Nat :=
  keccakRC.foldl keccakRound s

/-- Keccak `pad10*1` padding with the `0x01` domain byte, to a multiple of
the 136-byte rate. -/
def keccakPad (msg : List Nat) : List Nat :=
  let padLen := 136 - msg.length % 136
  if padLen = 1 then msg ++ [0x81]
  else msg ++ 0x01 :: List.replicate (padLen - 2) 0 ++ [0x80]

/-- Eight little-endian bytes to one 64-bit lane. -/
def bytesToLane (bs : List Nat) : Nat :=
  bs.foldr (fun b acc => b + 256 * acc) 0

/-- One 64-bit lane to eight little-endian bytes. -/
def laneToBytes (n : Nat) : List Nat :=
  (List.range 8).map fun i => n / 256 ^ i % 256

/-- Xor one 136-byte block (17 lanes) into the state. -/
def absorbBlock (s : List Nat) (block : List Nat) : List Nat :=
  let bl := (List.range 17).map fun i => bytesToLane ((block.drop (8 * i)).take 8)
  (List.range 25).map fun i => (s.getD i 0).xor (bl.getD i 0)

/-- Absorb `n` leading 136-byte blocks of `padded`, permuting after each
block (structural recursion on the block count, so that the kernel can
evaluate it). -/
def absorbBlocks (s : List Nat) (padded : List Nat) : Nat → List Nat
  | 0 => s
  | n + 1 =>
    absorbBlocks (keccakF (absorbBlock s (padded.take 136))) (padded.drop 136) n

/-- Absorb a padded message (length a positive multiple of 136). -/
def absorbAll (s : List Nat) (padded : List Nat) : List Nat :=
  absorbBlocks s padded (padded.length / 136)

/-- Keccak-256 of a byte sequence: absorb, then squeeze the first 32 bytes
(lanes 0–3, little-endian). -/
def keccak256 (msg : List Nat) : List Nat :=
  let s := absorbAll (List.replicate 25 0) (keccakPad msg)
  ((List.range 4).map fun i => laneToBytes (s.getD i 0)).flatten

/-! ## The topic derivation functions -/

/-- The UTF-8 bytes of a string (both event signature literals are ASCII, so
mapping each character to its code point is exactly the byte literal
`b"..."` the source hashes). -/
def strBytes (s : String) : List Nat := s.toList.map Char.toNat

/-- The byte literal `b"BlobIndexSettled(address,bytes32,string)"`. -/
def blob_index_settled_sig : List Nat :=
  strBytes "BlobIndexSettled(address,bytes32,string)"

/-- The byte literal `b"Bridge(address,address,uint256,uint256,string)"`. -/
def bridge_sig : List Nat :=
  strBytes "Bridge(address,address,uint256,uint256,string)"

/-- `get_blob_index_settled_topic`: Keccak-256 the settlement signature
bytes; `try_into::<[u8; 32]>().ok()?` succeeds exactly when the digest has
32 bytes, and the digest is wrapped verbatim by `H256::from`. -/
def get_blob_index_settled_topic : Option (List H256) :=
  let res := keccak256 blob_index_settled_sig
  if res.length = 32 then some [H256.fromBytes res] else none

/-- `get_bridge_event_topic`: same derivation for the bridge signature. -/
def get_bridge_event_topic : Option (List H256) :=
  let res := keccak256 bridge_sig
  if res.length = 32 then some [H256.fromBytes res] else none

/-! ## `ContractAddress` and `EoAddress` -/

/-- `ContractAddress([u8; 32])`. -/
structure ContractAddress where
  val : List Nat
deriving DecidableEq, Repr

/-- The copy loop of `From<String> for ContractAddress`:
`for (idx, byte) in arr.iter().enumerate() { bytes[idx] = *byte; }`.
Writing past the end of `bytes` is an index-out-of-bounds panic, embedded as
`none`. -/
def storeBytes : List Nat → List Nat → Nat → Option (List Nat)
  | [], bytes, _ => some bytes
  | b :: rest, bytes, idx =>
    if idx < bytes.length then storeBytes rest (bytes.set idx b) (idx + 1)
    else none

/-- `impl From<String> for ContractAddress`: slice the first 64 bytes of the
string (`value[..64]`, a panic — `none` — when the string is shorter; Rust
additionally panics on a non-char-boundary, which only adds further panics)
and copy them into a `[0u8; 32]` array.  `strBytes` (code points) stands in
for the byte sequence; the two agree on ASCII input and the length
comparison against 64 is unaffected otherwise. -/
def ContractAddress.fromString (value : String) : Option ContractAddress :=
  if 64 ≤ (strBytes value).length then
    (storeBytes ((strBytes value).take 64) (List.replicate 32 0) 0).map
      ContractAddress.mk
  else none

/-- `EoAddress(String)`. -/
structure EoAddress where
  val : String
deriving DecidableEq, Repr

/-- `EoAddress::new`. -/
def EoAddress.new (address : String) : EoAddress := ⟨address⟩

/-- `rustc_hex::FromHexError`. -/
inductive FromHexError where
  | invalidHexCharacter (c : Char) (idx : Nat)
  | invalidHexLength
deriving DecidableEq, Repr

/-- 20-byte `web3::types::H160`. -/
structure H160 where
  val : List Nat
deriving DecidableEq, Repr

/-- One hex digit (`0-9`, `a-f`, `A-F`) to its value. -/
def hexVal (c : Char) : Option Nat :=
  if '0' ≤ c ∧ c ≤ '9' then some (c.toNat - '0'.toNat)
  else if 'a' ≤ c ∧ c ≤ 'f' then some (c.toNat - 'a'.toNat + 10)
  else if 'A' ≤ c ∧ c ≤ 'F' then some (c.toNat - 'A'.toNat + 10)
  else none

/-- The loop of `rustc_hex::FromHex::from_hex`, with its `u8` accumulator
`buf` (tracked mod 256), nibble counter `modulus`, whitespace skipping
(which undoes the shift, as in the source) and per-position error index. -/
def from_hexLoop : List Char → Nat → Nat → Nat → List Nat →
    Except FromHexError (List Nat)
  | [], _, modulus, _, acc =>
    if modulus = 0 then .ok acc.reverse else .error .invalidHexLength
  | c :: rest, idx, modulus, buf, acc =>
    let buf := (buf <<< 4) % 256
    if c = ' ' ∨ c = '\r' ∨ c = '\n' ∨ c = '\t' then
      from_hexLoop rest (idx + 1) modulus (buf >>> 4) acc
    else
      match hexVal c with
      | none => .error (.invalidHexCharacter c idx)
      | some v =>
        let buf := buf ||| v
        if modulus + 1 = 2 then from_hexLoop rest (idx + 1) 0 buf (buf :: acc)
        else from_hexLoop rest (idx + 1) (modulus + 1) buf acc

/-- `rustc_hex::FromHex::from_hex` on a string. -/
def from_hex (s : String) : Except FromHexError (List Nat) :=
  from_hexLoop s.toList 0 0 0 []

/-- `str::strip_prefix("0x").unwrap_or(input)` on the character list (the
prefix is ASCII, so char-level matching coincides with the byte-level
strip). -/
def strip_0x : List Char → List Char
  | '0' :: 'x' :: rest => rest
  | l => l

/-- `EoAddress::parse`, i.e. `str::parse::<H160>` — the fixed-hash 0.8
`FromStr` (the version web3 0.19 resolves): strip a leading `"0x"` if
present, hex-decode the remainder (error positions are relative to the
stripped string, which is what rustc-hex sees), then demand exactly 20
bytes; `H160::from_slice` wraps the decoded bytes verbatim. -/
def EoAddress.parse (self : EoAddress) : Except FromHexError H160 :=
  match from_hex (String.mk (strip_0x self.val.toList)) with
  | .error e => .error e
  | .ok bytes =>
    if bytes.length = 20 then .ok ⟨bytes⟩ else .error .invalidHexLength

/-! ## Specification-side helpers (dedup/watermark bookkeeping)

These are *not* source functions: they name, for the theorems below, the
observable quantities of a batch run.  Each is related to the source
functions by a proved characterisation, never assumed. -/

/-- The block numbers of the logs of `events` that a batch run from state
`st` newly processes: those carrying a block number that the watermark test
`block_processed` does not discard.  (The source consults the unmodified
`self` throughout a batch — the single state write happens after the loop —
so the filter is against the batch-start state.) -/
def newBlocks (st : EoServer) (events : List Log) : List Nat :=
  events.filterMap fun e =>
    match e.block_number with
    | some bn => if st.block_processed bn then none else some bn
    | none => none

/-- Iterate `handle_bridge_event` over successive batches, as `run_loop`
does: the state is carried across cycles, and an errored cycle leaves it
unchanged (the `Err` is ignored by `run_loop`). -/
def runBatches (st : EoServer) (abi : EventAbi) : List (List Log) → EoServer
  | [] => st
  | b :: bs => runBatches (st.handle_bridge_event b abi).1 abi bs

/-- The newly processed block numbers accumulated across successive
bridge batches (an errored batch contributes none). -/
def runNewBlocks (st : EoServer) (abi : EventAbi) : List (List Log) → List Nat
  | [] => []
  | b :: bs =>
    match st.handle_bridge_event b abi with
    | (st', .ok _) => newBlocks st b ++ runNewBlocks st' abi bs
    | (st', .error _) => runNewBlocks st' abi bs

/-! ## Concrete fixtures for witnesses and counterexamples -/

/-- A test decoder that decodes every raw log (to an empty param list). -/
def okAbi : EventAbi := ⟨fun _ => .ok ⟨[]⟩⟩

/-- A test decoder that rejects a raw log with no topics — an ABI-shape
(malformed field) failure — and decodes everything else. -/
def shapeAbi : EventAbi :=
  ⟨fun r => if r.topics = [] then .error "invalid data" else .ok ⟨[]⟩⟩

/-- A fixed 32-byte topic for fixture logs. -/
def topic0 : H256 := ⟨List.replicate 32 0⟩

/-- A well-formed fixture log at block `bn`. -/
def logAt (bn : Nat) : Log :=
  { topics := [topic0], data := [], block_number := some bn }

/-- A fixture log with a missing block number. -/
def noBnLog : Log :=
  { topics := [topic0], data := [], block_number := none }

/-- A fixture log that `shapeAbi` fails to decode (no topics), at block 3. -/
def badLog : Log :=
  { topics := [], data := [], block_number := some 3 }

/-- A test decoder that echoes the raw data bytes into a named field, so that
distinct raw logs decode to distinct `ParsedLog`s. -/
def dataAbi : EventAbi :=
  ⟨fun r => .ok ⟨[⟨"data", .fixedBytes r.data⟩]⟩⟩

/-- A fixture log at block `bn` carrying payload `d`. -/
def logAtData (bn : Nat) (d : List Nat) : Log :=
  { topics := [topic0], data := d, block_number := some bn }

/-! # Theorems

First generic lemmas about running maxima and the loops, then one theorem
(plus witness / counterexample where applicable) per specification claim. -/

/-- The seed of a running maximum bounds it from below. -/
theorem le_foldl_max (l : List Nat) (a : Nat) : a ≤ l.foldl Nat.max a := by
  induction l generalizing a with
  | nil => exact Nat.le_refl a
  | cons b t ih => exact Nat.le_trans (Nat.le_max_left a b) (ih (Nat.max a b))

/-- Every member of a list bounds its running maximum from below. -/
theorem mem_le_foldl_max {b : Nat} {l : List Nat} (h : b ∈ l) (a : Nat) :
    b ≤ l.foldl Nat.max a := by
  induction l generalizing a with
  | nil => cases h
  | cons c t ih =>
    rcases List.mem_cons.mp h with rfl | hm
    · exact Nat.le_trans (Nat.le_max_right a b) (le_foldl_max t (Nat.max a b))
    · exact ih hm (Nat.max a c)

/-- A running maximum started at `Nat.max a b` factors out `a`. -/
theorem foldl_max_shift (l : List Nat) (a b : Nat) :
    l.foldl Nat.max (Nat.max a b) = Nat.max a (l.foldl Nat.max b) := by
  induction l generalizing a b with
  | nil => rfl
  | cons c t ih =>
    show t.foldl Nat.max (Nat.max (Nat.max a b) c)
        = Nat.max a (t.foldl Nat.max (Nat.max b c))
    have h : Nat.max (Nat.max a b) c = Nat.max a (Nat.max b c) := by
      simp only [Nat.max_def]
      repeat' split
      all_goals omega
    rw [h, ih]

/-- The source's `if highest_block < bn { bn } else { highest_block }` update
is the binary maximum. -/
theorem if_lt_eq_max (a b : Nat) : (if a < b then b else a) = Nat.max a b := by
  simp only [Nat.max_def]
  repeat' split
  all_goals omega

/-- On a successful run, the bridge loop writes `Number(h)` where `h` is the
running maximum of its `highest_block` seed and the batch's newly processed
block numbers. -/
theorem bridgeLoop_ok_last (st : EoServer) (abi : EventAbi) :
    ∀ (events : List Log) (parsed : List ParsedLog) (highest : Nat)
      (st' : EoServer) (out : List ParsedLog),
      st.bridgeLoop abi events parsed highest = (st', .ok out) →
      st'.last_processed_block
        = .number ((newBlocks st events).foldl Nat.max highest) := by
  intro events
  induction events with
  | nil =>
    intro parsed highest st' out h
    simp only [EoServer.bridgeLoop, Prod.mk.injEq] at h
    rw [← h.1]
    simp [newBlocks]
  | cons e t ih =>
    intro parsed highest st' out h
    rw [EoServer.bridgeLoop] at h
    cases hbn : e.block_number with
    | none => simp [hbn] at h
    | some bn =>
      simp only [hbn] at h
      by_cases hp : st.block_processed bn = true
      · rw [if_pos hp] at h
        have hr := ih parsed highest st' out h
        rw [hr]
        simp [newBlocks, List.filterMap_cons, hbn, hp]
      · rw [if_neg hp] at h
        cases hpr : st.parse_bridge_event e abi with
        | error err => rw [hpr] at h; simp at h
        | ok lg =>
          rw [hpr] at h
          have hr := ih (parsed ++ [lg])
            (if highest < bn then bn else highest) st' out h
          rw [hr, if_lt_eq_max]
          have hpf : st.block_processed bn = false := by
            revert hp
            cases st.block_processed bn <;> simp
          simp [newBlocks, List.filterMap_cons, hbn, hpf]

/-- The settlement loop writes the same `Number(running max)` state on
success (its control flow is identical to the bridge loop). -/
theorem settlementLoop_ok_last (st : EoServer) (abi : EventAbi) :
    ∀ (events : List Log) (parsed : List ParsedLog) (highest : Nat)
      (st' : EoServer) (out : List ParsedLog),
      st.settlementLoop abi events parsed highest = (st', .ok out) →
      st'.last_processed_block
        = .number ((newBlocks st events).foldl Nat.max highest) := by
  intro events
  induction events with
  | nil =>
    intro parsed highest st' out h
    simp only [EoServer.settlementLoop, Prod.mk.injEq] at h
    rw [← h.1]
    simp [newBlocks]
  | cons e t ih =>
    intro parsed highest st' out h
    rw [EoServer.settlementLoop] at h
    cases hbn : e.block_number with
    | none => simp [hbn] at h
    | some bn =>
      simp only [hbn] at h
      by_cases hp : st.block_processed bn = true
      · rw [if_pos hp] at h
        have hr := ih parsed highest st' out h
        rw [hr]
        simp [newBlocks, List.filterMap_cons, hbn, hp]
      · rw [if_neg hp] at h
        cases hpr : st.parse_settlement_event e abi with
        | error err => rw [hpr] at h; simp at h
        | ok lg =>
          rw [hpr] at h
          have hr := ih parsed
            (if highest < bn then bn else highest) st' out h
          rw [hr, if_lt_eq_max]
          have hpf : st.block_processed bn = false := by
            revert hp
            cases st.block_processed bn <;> simp
          simp [newBlocks, List.filterMap_cons, hbn, hpf]

/-- Every error exit of the bridge loop leaves the state untouched (the
source's single state write sits after the loop, unreachable past a `?`). -/
theorem bridgeLoop_error_st (st : EoServer) (abi : EventAbi) :
    ∀ (events : List Log) (parsed : List ParsedLog) (highest : Nat)
      (st' : EoServer) (err : EoServerError),
      st.bridgeLoop abi events parsed highest = (st', .error err) → st' = st := by
  intro events
  induction events with
  | nil =>
    intro parsed highest st' err h
    simp [EoServer.bridgeLoop] at h
  | cons e t ih =>
    intro parsed highest st' err h
    rw [EoServer.bridgeLoop] at h
    cases hbn : e.block_number with
    | none =>
      simp only [hbn, Prod.mk.injEq] at h
      exact h.1.symm
    | some bn =>
      simp only [hbn] at h
      by_cases hp : st.block_processed bn = true
      · rw [if_pos hp] at h
        exact ih parsed highest st' err h
      · rw [if_neg hp] at h
        cases hpr : st.parse_bridge_event e abi with
        | error e2 =>
          rw [hpr] at h
          simp only [Prod.mk.injEq] at h
          exact h.1.symm
        | ok lg =>
          rw [hpr] at h
          exact ih (parsed ++ [lg]) (if highest < bn then bn else highest) st' err h

/-- Every error exit of the settlement loop leaves the state untouched. -/
theorem settlementLoop_error_st (st : EoServer) (abi : EventAbi) :
    ∀ (events : List Log) (parsed : List ParsedLog) (highest : Nat)
      (st' : EoServer) (err : EoServerError),
      st.settlementLoop abi events parsed highest = (st', .error err) → st' = st := by
  intro events
  induction events with
  | nil =>
    intro parsed highest st' err h
    simp [EoServer.settlementLoop] at h
  | cons e t ih =>
    intro parsed highest st' err h
    rw [EoServer.settlementLoop] at h
    cases hbn : e.block_number with
    | none =>
      simp only [hbn, Prod.mk.injEq] at h
      exact h.1.symm
    | some bn =>
      simp only [hbn] at h
      by_cases hp : st.block_processed bn = true
      · rw [if_pos hp] at h
        exact ih parsed highest st' err h
      · rw [if_neg hp] at h
        cases hpr : st.parse_settlement_event e abi with
        | error e2 =>
          rw [hpr] at h
          simp only [Prod.mk.injEq] at h
          exact h.1.symm
        | ok lg =>
          rw [hpr] at h
          exact ih parsed (if highest < bn then bn else highest) st' err h

/-- A batch containing a log without a block number always drives the bridge
loop into an error exit (the `ok_or(...)?` fires for every log reached, and
any earlier exit is itself an error), with the state untouched. -/
theorem bridgeLoop_missing_bn (st : EoServer) (abi : EventAbi) :
    ∀ (events : List Log) (parsed : List ParsedLog) (highest : Nat),
      (∃ e ∈ events, e.block_number = none) →
      ∃ err, st.bridgeLoop abi events parsed highest = (st, .error err) := by
  intro events
  induction events with
  | nil =>
    intro parsed highest h
    simp at h
  | cons e t ih =>
    intro parsed highest h
    rw [EoServer.bridgeLoop]
    cases hbn : e.block_number with
    | none => exact ⟨.other "Log missing block number", rfl⟩
    | some bn =>
      dsimp only
      have ht : ∃ e2 ∈ t, e2.block_number = none := by
        obtain ⟨e2, hm, hn⟩ := h
        rcases List.mem_cons.mp hm with rfl | hm2
        · rw [hbn] at hn; cases hn
        · exact ⟨e2, hm2, hn⟩
      by_cases hp : st.block_processed bn = true
      · rw [if_pos hp]
        exact ih parsed highest ht
      · rw [if_neg hp]
        cases hpr : st.parse_bridge_event e abi with
        | error e2 => exact ⟨e2, rfl⟩
        | ok lg =>
          exact ih (parsed ++ [lg]) (if highest < bn then bn else highest) ht

/-- Settlement-loop analogue of `bridgeLoop_missing_bn`. -/
theorem settlementLoop_missing_bn (st : EoServer) (abi : EventAbi) :
    ∀ (events : List Log) (parsed : List ParsedLog) (highest : Nat),
      (∃ e ∈ events, e.block_number = none) →
      ∃ err, st.settlementLoop abi events parsed highest = (st, .error err) := by
  intro events
  induction events with
  | nil =>
    intro parsed highest h
    simp at h
  | cons e t ih =>
    intro parsed highest h
    rw [EoServer.settlementLoop]
    cases hbn : e.block_number with
    | none => exact ⟨.other "Log missing block number", rfl⟩
    | some bn =>
      dsimp only
      have ht : ∃ e2 ∈ t, e2.block_number = none := by
        obtain ⟨e2, hm, hn⟩ := h
        rcases List.mem_cons.mp hm with rfl | hm2
        · rw [hbn] at hn; cases hn
        · exact ⟨e2, hm2, hn⟩
      by_cases hp : st.block_processed bn = true
      · rw [if_pos hp]
        exact ih parsed highest ht
      · rw [if_neg hp]
        cases hpr : st.parse_settlement_event e abi with
        | error e2 => exact ⟨e2, rfl⟩
        | ok lg =>
          exact ih parsed (if highest < bn then bn else highest) ht

/-- Logs whose block number is already at or below a `Number` watermark are
no-ops for the bridge loop: removing them from the batch changes nothing
(they are checked for a block number — which they have — and then skipped by
`block_processed` without touching either accumulator). -/
theorem bridgeLoop_skip (st : EoServer) (abi : EventAbi) (B : Nat)
    (hB : st.block_processed B = true) :
    ∀ (events : List Log) (parsed : List ParsedLog) (highest : Nat),
      st.bridgeLoop abi (events.filter fun e => e.block_number != some B)
          parsed highest
        = st.bridgeLoop abi events parsed highest := by
  intro events
  induction events with
  | nil => intro parsed highest; rfl
  | cons e t ih =>
    intro parsed highest
    by_cases hc : e.block_number = some B
    · have hdrop : (e :: t).filter (fun e => e.block_number != some B)
          = t.filter fun e => e.block_number != some B := by
        simp [List.filter_cons, hc]
      rw [hdrop, ih]
      conv_rhs => rw [EoServer.bridgeLoop]
      rw [hc]
      dsimp only
      rw [if_pos hB]
    · have hkeep : (e :: t).filter (fun e => e.block_number != some B)
          = e :: t.filter fun e => e.block_number != some B := by
        simp [List.filter_cons, hc]
      rw [hkeep]
      rw [EoServer.bridgeLoop]
      conv_rhs => rw [EoServer.bridgeLoop]
      cases hbn : e.block_number with
      | none => rfl
      | some bn =>
        dsimp only
        by_cases hp : st.block_processed bn = true
        · rw [if_pos hp, if_pos hp, ih]
        · rw [if_neg hp, if_neg hp]
          cases hpr : st.parse_bridge_event e abi with
          | error e2 => rfl
          | ok lg =>
            dsimp only
            rw [ih]

/-- If a reached log of the batch fails ABI decoding — every log before it
has a block number and is either watermark-skipped or decodable — the bridge
loop exits with that decode error and the untouched state. -/
theorem bridgeLoop_parse_abort (st : EoServer) (abi : EventAbi)
    (bad : Log) (post : List Log) (bnB : Nat) (msg : String)
    (hbadBn : bad.block_number = some bnB)
    (hbadNew : st.block_processed bnB = false)
    (hbadParse : abi.parse_log { topics := bad.topics, data := bad.data }
      = .error msg) :
    ∀ (pre : List Log) (parsed : List ParsedLog) (highest : Nat),
      (∀ e ∈ pre, ∃ bn, e.block_number = some bn ∧
        (st.block_processed bn = true ∨
          ∃ p, abi.parse_log { topics := e.topics, data := e.data } = .ok p)) →
      st.bridgeLoop abi (pre ++ bad :: post) parsed highest
        = (st, .error (.other msg)) := by
  intro pre
  induction pre with
  | nil =>
    intro parsed highest _
    rw [List.nil_append, EoServer.bridgeLoop, hbadBn]
    dsimp only
    rw [hbadNew]
    simp only [Bool.false_eq_true, if_false]
    have hpb : st.parse_bridge_event bad abi = .error (.other msg) := by
      rw [EoServer.parse_bridge_event, hbadParse]
    rw [hpb]
  | cons e t ih =>
    intro parsed highest hpre
    obtain ⟨bn, hbn, hdisj⟩ := hpre e (List.mem_cons_self e t)
    have hrest : ∀ e2 ∈ t, ∃ bn, e2.block_number = some bn ∧
        (st.block_processed bn = true ∨
          ∃ p, abi.parse_log { topics := e2.topics, data := e2.data } = .ok p) :=
      fun e2 h2 => hpre e2 (List.mem_cons_of_mem e h2)
    rw [List.cons_append, EoServer.bridgeLoop, hbn]
    dsimp only
    rcases hdisj with hp | ⟨p, hok⟩
    · rw [if_pos hp]
      exact ih parsed highest hrest
    · by_cases hp : st.block_processed bn = true
      · rw [if_pos hp]
        exact ih parsed highest hrest
      · rw [if_neg hp]
        have hpb : st.parse_bridge_event e abi = .ok p := by
          rw [EoServer.parse_bridge_event, hok]
        rw [hpb]
        dsimp only
        exact ih (parsed ++ [p]) (if highest < bn then bn else highest) hrest

/-- Settlement-loop analogue of `bridgeLoop_parse_abort`. -/
theorem settlementLoop_parse_abort (st : EoServer) (abi : EventAbi)
    (bad : Log) (post : List Log) (bnB : Nat) (msg : String)
    (hbadBn : bad.block_number = some bnB)
    (hbadNew : st.block_processed bnB = false)
    (hbadParse : abi.parse_log { topics := bad.topics, data := bad.data }
      = .error msg) :
    ∀ (pre : List Log) (parsed : List ParsedLog) (highest : Nat),
      (∀ e ∈ pre, ∃ bn, e.block_number = some bn ∧
        (st.block_processed bn = true ∨
          ∃ p, abi.parse_log { topics := e.topics, data := e.data } = .ok p)) →
      st.settlementLoop abi (pre ++ bad :: post) parsed highest
        = (st, .error (.other msg)) := by
  intro pre
  induction pre with
  | nil =>
    intro parsed highest _
    rw [List.nil_append, EoServer.settlementLoop, hbadBn]
    dsimp only
    rw [hbadNew]
    simp only [Bool.false_eq_true, if_false]
    have hpb : st.parse_settlement_event bad abi = .error (.other msg) := by
      rw [EoServer.parse_settlement_event, hbadParse]
    rw [hpb]
  | cons e t ih =>
    intro parsed highest hpre
    obtain ⟨bn, hbn, hdisj⟩ := hpre e (List.mem_cons_self e t)
    have hrest : ∀ e2 ∈ t, ∃ bn, e2.block_number = some bn ∧
        (st.block_processed bn = true ∨
          ∃ p, abi.parse_log { topics := e2.topics, data := e2.data } = .ok p) :=
      fun e2 h2 => hpre e2 (List.mem_cons_of_mem e h2)
    rw [List.cons_append, EoServer.settlementLoop, hbn]
    dsimp only
    rcases hdisj with hp | ⟨p, hok⟩
    · rw [if_pos hp]
      exact ih parsed highest hrest
    · by_cases hp : st.block_processed bn = true
      · rw [if_pos hp]
        exact ih parsed highest hrest
      · rw [if_neg hp]
        have hpb : st.parse_settlement_event e abi = .ok p := by
          rw [EoServer.parse_settlement_event, hok]
        rw [hpb]
        dsimp only
        exact ih parsed (if highest < bn then bn else highest) hrest

/-- An unprocessed decodable-or-not log with block number `bn` contributes
`bn` to `newBlocks`. -/
theorem mem_newBlocks_of (st : EoServer) {events : List Log} {e : Log}
    {bn : Nat} (he : e ∈ events) (hbn : e.block_number = some bn)
    (hp : st.block_processed bn = false) : bn ∈ newBlocks st events := by
  rw [newBlocks, List.mem_filterMap]
  exact ⟨e, he, by rw [hbn]; simp [hp]⟩

/-- Every entry of `newBlocks` is at least the integer watermark: a `Number`
watermark admits only strictly larger blocks, any other watermark reads as
zero. -/
theorem inner_le_of_mem_newBlocks (st : EoServer) {events : List Log}
    {b : Nat} (h : b ∈ newBlocks st events) :
    st.inner_block_processed ≤ b := by
  rw [newBlocks, List.mem_filterMap] at h
  obtain ⟨e, _, hf⟩ := h
  cases hbn : e.block_number with
  | none => rw [hbn] at hf; cases hf
  | some bn =>
    rw [hbn] at hf
    by_cases hp : st.block_processed bn = true
    · simp [hp] at hf
    · have hpf : st.block_processed bn = false := by
        revert hp
        cases st.block_processed bn <;> simp
      simp [hpf] at hf
      rw [EoServer.block_processed] at hpf
      rw [EoServer.inner_block_processed]
      cases hlast : st.last_processed_block with
      | number w =>
        rw [hlast] at hpf
        simp at hpf
        dsimp only
        omega
      | latest => exact Nat.zero_le _
      | earliest => exact Nat.zero_le _
      | pending => exact Nat.zero_le _
      | safe => exact Nat.zero_le _
      | finalized => exact Nat.zero_le _

/-- `handle_bridge_event` on success: the new watermark field is
`Number(running max of the prior integer watermark and the newly processed
blocks)`. -/
theorem handle_bridge_ok_last {st : EoServer} {abi : EventAbi}
    {events : List Log} {st' : EoServer} {out : List ParsedLog}
    (h : st.handle_bridge_event events abi = (st', .ok out)) :
    st'.last_processed_block
      = .number ((newBlocks st events).foldl Nat.max
          st.inner_block_processed) :=
  bridgeLoop_ok_last st abi events [] st.inner_block_processed st' out h

/-- `handle_settlement_event` analogue of `handle_bridge_ok_last`. -/
theorem handle_settlement_ok_last {st : EoServer} {abi : EventAbi}
    {events : List Log} {st' : EoServer} {out : List ParsedLog}
    (h : st.handle_settlement_event events abi = (st', .ok out)) :
    st'.last_processed_block
      = .number ((newBlocks st events).foldl Nat.max
          st.inner_block_processed) :=
  settlementLoop_ok_last st abi events [] st.inner_block_processed st' out h

/-- `handle_bridge_event` on error leaves the state untouched. -/
theorem handle_bridge_error_st {st : EoServer} {abi : EventAbi}
    {events : List Log} {st' : EoServer} {err : EoServerError}
    (h : st.handle_bridge_event events abi = (st', .error err)) : st' = st :=
  bridgeLoop_error_st st abi events [] st.inner_block_processed st' err h

/-- A running maximum whose seed is dominated by every member of a nonempty
list equals the plain maximum of the list. -/
theorem foldl_max_init_absorb (l : List Nat) (a : Nat) (hne : l ≠ [])
    (hall : ∀ x ∈ l, a ≤ x) : l.foldl Nat.max a = l.foldl Nat.max 0 := by
  cases l with
  | nil => exact absurd rfl hne
  | cons c t =>
    have hac : a ≤ c := hall c (List.mem_cons_self c t)
    show t.foldl Nat.max (Nat.max a c) = t.foldl Nat.max (Nat.max 0 c)
    have h1 : Nat.max a c = c := by
      simp only [Nat.max_def]
      split
      all_goals omega
    have h2 : Nat.max 0 c = c := by
      simp only [Nat.max_def]
      split
      all_goals omega
    rw [h1, h2]

/-- Claim C1 (counterexample): with the watermark at 0, a batch holding a log
that fails ABI decoding (`badLog`, block 3, rejected by `shapeAbi`) followed
by a well-formed, not-yet-processed log at block 4, `handle_bridge_event`
aborts the whole batch with the decode error — the well-formed log is *not*
delivered — although the same well-formed log alone decodes and is
delivered.  This falsifies "only that single log is skipped: processing
continues and every other well-formed, not-yet-processed log in the batch is
still decoded and delivered". -/
theorem claim_C1_counterexample :
    EoServer.handle_bridge_event ⟨.number 0⟩ [badLog, logAt 4] shapeAbi
        = (⟨.number 0⟩, .error (.other "invalid data"))
    ∧ EoServer.handle_bridge_event ⟨.number 0⟩ [logAt 4] shapeAbi
        = (⟨.number 4⟩, .ok [⟨[]⟩]) := ⟨rfl, rfl⟩

/-- Claim C1 (amended): if any reached log of the batch fails ABI decoding —
every log before it carries a block number and is either watermark-skipped
or decodable — then both batch handlers abort the *entire* batch: they
return the decode error wrapped in `EoServerError::Other`, deliver no log of
the batch, and leave the state (watermark) untouched. -/
theorem claim_C1_batch_abort :
    ∀ (st : EoServer) (abi : EventAbi) (pre post : List Log) (bad : Log)
      (bnB : Nat) (msg : String),
      (∀ e ∈ pre, ∃ bn, e.block_number = some bn ∧
        (st.block_processed bn = true ∨
          ∃ p, abi.parse_log { topics := e.topics, data := e.data } = .ok p)) →
      bad.block_number = some bnB →
      st.block_processed bnB = false →
      abi.parse_log { topics := bad.topics, data := bad.data } = .error msg →
      st.handle_bridge_event (pre ++ bad :: post) abi
          = (st, .error (.other msg))
      ∧ st.handle_settlement_event (pre ++ bad :: post) abi
          = (st, .error (.other msg)) := by
  intro st abi pre post bad bnB msg hpre hbn hnew hparse
  exact ⟨bridgeLoop_parse_abort st abi bad post bnB msg hbn hnew hparse pre []
      st.inner_block_processed hpre,
    settlementLoop_parse_abort st abi bad post bnB msg hbn hnew hparse pre []
      st.inner_block_processed hpre⟩

/-- Witness for `claim_C1_batch_abort` at a concrete batch
`[logAt 4, badLog, logAt 9]` from watermark 0. -/
theorem claim_C1_batch_abort_witness :
    EoServer.handle_bridge_event ⟨.number 0⟩ [logAt 4, badLog, logAt 9]
        shapeAbi = (⟨.number 0⟩, .error (.other "invalid data"))
    ∧ EoServer.handle_settlement_event ⟨.number 0⟩ [logAt 4, badLog, logAt 9]
        shapeAbi = (⟨.number 0⟩, .error (.other "invalid data")) := by
  have hpre : ∀ e ∈ [logAt 4], ∃ bn, e.block_number = some bn ∧
      ((⟨.number 0⟩ : EoServer).block_processed bn = true ∨
        ∃ p, shapeAbi.parse_log { topics := e.topics, data := e.data }
          = .ok p) := by
    intro e he
    have he2 : e = logAt 4 := by
      rcases List.mem_cons.mp he with h | h
      · exact h
      · cases h
    subst he2
    exact ⟨4, rfl, Or.inr ⟨⟨[]⟩, rfl⟩⟩
  exact claim_C1_batch_abort ⟨.number 0⟩ shapeAbi [logAt 4] [logAt 9] badLog 3
    "invalid data" hpre rfl rfl rfl

/-- Claim C2 (code bug, evaluated): from watermark 0, a settlement batch with
one decodable log at block 5 — above the watermark, as the third conjunct
shows, and decodable, as the second shows — returns `Ok([])`: the parsed log
is dropped (the push present in `handle_bridge_event` is missing from
`handle_settlement_event`), even though the watermark still advances to 5.
The bridge handler on the same input returns the parsed log (last
conjunct). -/
theorem claim_C2_settlement_drops_logs :
    EoServer.handle_settlement_event ⟨.number 0⟩ [logAt 5] okAbi
        = (⟨.number 5⟩, .ok [])
    ∧ okAbi.parse_log { topics := (logAt 5).topics, data := (logAt 5).data }
        = .ok ⟨[]⟩
    ∧ EoServer.block_processed ⟨.number 0⟩ 5 = false
    ∧ EoServer.handle_bridge_event ⟨.number 0⟩ [logAt 5] okAbi
        = (⟨.number 5⟩, .ok [⟨[]⟩]) := ⟨rfl, rfl, rfl, rfl⟩

/-- Claim C4: a batch containing a log without a block number makes both
batch handlers return an error (`Other("Log missing block number")` when it
is the first failure reached), leave the watermark state exactly as it was,
and deliver no log of the batch. -/
theorem claim_C4_missing_block_aborts :
    ∀ (st : EoServer) (abi : EventAbi) (events : List Log),
      (∃ e ∈ events, e.block_number = none) →
      ((st.handle_bridge_event events abi).1 = st
        ∧ ∃ err, (st.handle_bridge_event events abi).2 = .error err)
      ∧ ((st.handle_settlement_event events abi).1 = st
        ∧ ∃ err, (st.handle_settlement_event events abi).2 = .error err) := by
  intro st abi events h
  obtain ⟨errB, hB⟩ :=
    bridgeLoop_missing_bn st abi events [] st.inner_block_processed h
  obtain ⟨errS, hS⟩ :=
    settlementLoop_missing_bn st abi events [] st.inner_block_processed h
  have hB2 : st.handle_bridge_event events abi = (st, .error errB) := hB
  have hS2 : st.handle_settlement_event events abi = (st, .error errS) := hS
  rw [hB2, hS2]
  exact ⟨⟨rfl, errB, rfl⟩, ⟨rfl, errS, rfl⟩⟩

/-- Witness for `claim_C4_missing_block_aborts`: batch `[logAt 5, noBnLog]`
from watermark 0. -/
theorem claim_C4_missing_block_aborts_witness :
    (EoServer.handle_bridge_event ⟨.number 0⟩ [logAt 5, noBnLog] okAbi).1
        = ⟨.number 0⟩
    ∧ ∃ err,
      (EoServer.handle_bridge_event ⟨.number 0⟩ [logAt 5, noBnLog] okAbi).2
        = .error err := by
  have h := claim_C4_missing_block_aborts ⟨.number 0⟩ okAbi [logAt 5, noBnLog]
    ⟨noBnLog, by simp, rfl⟩
  exact h.1

/-- Claim C3 (counterexample): the two handlers do *not* keep independent
watermarks.  From watermark 0, a bridge batch at block 10 rewrites the single
`last_processed_block` field to 10; the dedup test the settlement handler
consults (`block_processed 5`) flips from `false` to `true`, and indeed the
settlement handler run after the bridge batch treats block 5 as already
processed (state stays at 10), whereas from the untouched state it would
have processed it (state advances to 5). -/
theorem claim_C3_counterexample :
    EoServer.handle_bridge_event ⟨.number 0⟩ [logAt 10] okAbi
        = (⟨.number 10⟩, .ok [⟨[]⟩])
    ∧ EoServer.block_processed ⟨.number 0⟩ 5 = false
    ∧ EoServer.block_processed ⟨.number 10⟩ 5 = true
    ∧ EoServer.handle_settlement_event ⟨.number 0⟩ [logAt 5] okAbi
        = (⟨.number 5⟩, .ok [])
    ∧ EoServer.handle_settlement_event ⟨.number 10⟩ [logAt 5] okAbi
        = (⟨.number 10⟩, .ok []) := ⟨rfl, rfl, rfl, rfl, rfl⟩

/-- Claim C3 (amended): the settlement and bridge handlers share the one
`last_processed_block` watermark.  After a successful batch of either type,
the `block_processed` test — the very test both handlers consult — answers
`b ≤ max(previous integer watermark, newly processed blocks of that batch)`
for every block `b`: each handler's batch rewrites the watermark the other
handler will consult. -/
theorem claim_C3_shared_watermark :
    ∀ (stB stS stB' stS' : EoServer) (abi : EventAbi) (evB evS : List Log)
      (outB outS : List ParsedLog) (b c : Nat),
      stB.handle_bridge_event evB abi = (stB', .ok outB) →
      stS.handle_settlement_event evS abi = (stS', .ok outS) →
      stB'.block_processed b
        = decide (b ≤ (newBlocks stB evB).foldl Nat.max
            stB.inner_block_processed)
      ∧ stS'.block_processed c
        = decide (c ≤ (newBlocks stS evS).foldl Nat.max
            stS.inner_block_processed) := by
  intro stB stS stB' stS' abi evB evS outB outS b c hB hS
  constructor
  · rw [EoServer.block_processed, handle_bridge_ok_last hB]
  · rw [EoServer.block_processed, handle_settlement_ok_last hS]

/-- Witness for `claim_C3_shared_watermark`: the bridge batch `[logAt 10]`
from watermark 0 flips the settlement handler's own dedup test for block 5. -/
theorem claim_C3_shared_watermark_witness :
    EoServer.block_processed ⟨.number 10⟩ 5 = true := by
  have h := claim_C3_shared_watermark ⟨.number 0⟩ ⟨.number 10⟩ ⟨.number 10⟩
    ⟨.number 10⟩ okAbi [logAt 10] [logAt 5] [⟨[]⟩] [] 5 5 rfl rfl
  exact h.1.trans (by decide)

/-- Claim C5: exactly-once delivery across two consecutive bridge batches.
If both invocations succeed and the first input holds a log at block `B`,
then afterwards `block_processed B` holds, so the second invocation treats
every log at block `B` as already processed: deleting those logs from the
second input changes neither its output nor its final state. -/
theorem claim_C5_exactly_once :
    ∀ (st0 st1 st2 : EoServer) (abi : EventAbi) (events1 events2 : List Log)
      (out1 out2 : List ParsedLog) (B : Nat),
      (∃ e ∈ events1, e.block_number = some B) →
      (∃ e ∈ events2, e.block_number = some B) →
      st0.handle_bridge_event events1 abi = (st1, .ok out1) →
      st1.handle_bridge_event events2 abi = (st2, .ok out2) →
      st1.block_processed B = true
      ∧ st1.handle_bridge_event
          (events2.filter fun e => e.block_number != some B) abi
        = (st2, .ok out2) := by
  intro st0 st1 st2 abi events1 events2 out1 out2 B h1mem _ h1 h2
  have hlast := handle_bridge_ok_last h1
  have hBW : B ≤ (newBlocks st0 events1).foldl Nat.max
      st0.inner_block_processed := by
    obtain ⟨e, hmem, hbn⟩ := h1mem
    by_cases hp : st0.block_processed B = true
    · have hle : B ≤ st0.inner_block_processed := by
        rw [EoServer.block_processed] at hp
        rw [EoServer.inner_block_processed]
        cases hlast0 : st0.last_processed_block with
        | number w =>
          rw [hlast0] at hp
          simp at hp
          dsimp only
          omega
        | latest => rw [hlast0] at hp; cases hp
        | earliest => rw [hlast0] at hp; cases hp
        | pending => rw [hlast0] at hp; cases hp
        | safe => rw [hlast0] at hp; cases hp
        | finalized => rw [hlast0] at hp; cases hp
      exact Nat.le_trans hle (le_foldl_max _ _)
    · have hpf : st0.block_processed B = false := by
        revert hp
        cases st0.block_processed B <;> simp
      exact mem_le_foldl_max (mem_newBlocks_of st0 hmem hbn hpf) _
  have hproc : st1.block_processed B = true := by
    rw [EoServer.block_processed, hlast]
    simp [hBW]
  refine ⟨hproc, ?_⟩
  have hskip := bridgeLoop_skip st1 abi B hproc events2 []
    st1.inner_block_processed
  exact hskip.trans h2

/-- Witness for `claim_C5_exactly_once`: two consecutive batches both
containing a log at block 5, from watermark 0. -/
theorem claim_C5_exactly_once_witness :
    EoServer.block_processed ⟨.number 5⟩ 5 = true
    ∧ EoServer.handle_bridge_event ⟨.number 5⟩
        ([logAt 5].filter fun e => e.block_number != some 5) okAbi
      = (⟨.number 5⟩, .ok []) :=
  claim_C5_exactly_once ⟨.number 0⟩ ⟨.number 5⟩ ⟨.number 5⟩ okAbi [logAt 5]
    [logAt 5] [⟨[]⟩] [] 5 ⟨logAt 5, List.mem_cons_self _ _, rfl⟩
    ⟨logAt 5, List.mem_cons_self _ _, rfl⟩ rfl rfl

/-- Claim C6: after a successful bridge batch the integer watermark equals
the plain maximum of the batch's newly processed block numbers (when any
exist) — a quantity independent of any query bound — and a batch with zero
logs leaves the watermark untouched: the integer watermark is unchanged, and
a `Number` watermark state is unchanged verbatim. -/
theorem claim_C6_batch_max_watermark :
    ∀ (st : EoServer) (abi : EventAbi) (events : List Log)
      (st' : EoServer) (out : List ParsedLog),
      st.handle_bridge_event events abi = (st', .ok out) →
      (newBlocks st events ≠ [] →
        st'.inner_block_processed = (newBlocks st events).foldl Nat.max 0)
      ∧ (events = [] →
        st'.inner_block_processed = st.inner_block_processed ∧ out = [])
      ∧ (∀ w, st.last_processed_block = .number w → events = [] → st' = st) := by
  intro st abi events st' out h
  have hlast := handle_bridge_ok_last h
  have hinner : st'.inner_block_processed
      = (newBlocks st events).foldl Nat.max st.inner_block_processed := by
    rw [EoServer.inner_block_processed, hlast]
  refine ⟨?_, ?_, ?_⟩
  · intro hne
    rw [hinner]
    exact foldl_max_init_absorb (newBlocks st events) st.inner_block_processed
      hne (fun x hx => inner_le_of_mem_newBlocks st hx)
  · intro h0
    subst h0
    simp only [EoServer.handle_bridge_event, EoServer.bridgeLoop,
      Prod.mk.injEq, Except.ok.injEq] at h
    obtain ⟨hst, hout⟩ := h
    subst hst
    exact ⟨rfl, hout.symm⟩
  · intro w hw h0
    subst h0
    simp only [EoServer.handle_bridge_event, EoServer.bridgeLoop,
      Prod.mk.injEq, Except.ok.injEq] at h
    obtain ⟨hst, hout⟩ := h
    subst hst
    cases st with
    | mk last =>
      have hw2 : last = .number w := hw
      subst hw2
      rfl

/-- Witness for `claim_C6_batch_max_watermark`: a batch at blocks
{10, 12, 15} from watermark 5 advances the watermark to exactly 15 (not to
any query bound such as 20). -/
theorem claim_C6_batch_max_watermark_witness :
    (EoServer.handle_bridge_event ⟨.number 5⟩ [logAt 10, logAt 12, logAt 15]
        okAbi).1.inner_block_processed = 15
    ∧ (EoServer.handle_bridge_event ⟨.number 5⟩ [] okAbi).1 = ⟨.number 5⟩ := by
  constructor
  · have h := claim_C6_batch_max_watermark ⟨.number 5⟩ okAbi
      [logAt 10, logAt 12, logAt 15] ⟨.number 15⟩ [⟨[]⟩, ⟨[]⟩, ⟨[]⟩] rfl
    have h2 := h.1 (by decide)
    have h3 : (EoServer.handle_bridge_event ⟨.number 5⟩
        [logAt 10, logAt 12, logAt 15] okAbi).1 = ⟨.number 15⟩ := rfl
    rw [h3]
    exact h2.trans (by decide)
  · have h := claim_C6_batch_max_watermark ⟨.number 5⟩ okAbi [] ⟨.number 5⟩
      [] rfl
    have h4 := h.2.2 5 rfl rfl
    exact (rfl : (EoServer.handle_bridge_event ⟨.number 5⟩ [] okAbi).1
      = ⟨.number 5⟩).trans h4

/-- Claim C7: across any sequence of bridge-batch invocations the integer
watermark after the run equals the running maximum of its initial value and
all newly processed block numbers seen so far (instantiating the sequence at
every prefix gives the value after each invocation), and in particular it
never decreases. -/
theorem claim_C7_watermark_monotone :
    ∀ (st : EoServer) (abi : EventAbi) (batches : List (List Log)),
      (runBatches st abi batches).inner_block_processed
        = (runNewBlocks st abi batches).foldl Nat.max
            st.inner_block_processed
      ∧ st.inner_block_processed
        ≤ (runBatches st abi batches).inner_block_processed := by
  intro st abi batches
  induction batches generalizing st with
  | nil => exact ⟨rfl, Nat.le_refl _⟩
  | cons b bs ih =>
    cases hh : st.handle_bridge_event b abi with
    | mk st1 res =>
      have hrB : runBatches st abi (b :: bs) = runBatches st1 abi bs := by
        rw [runBatches, hh]
      cases res with
      | ok out =>
        have hinner1 : st1.inner_block_processed
            = (newBlocks st b).foldl Nat.max st.inner_block_processed := by
          rw [EoServer.inner_block_processed, handle_bridge_ok_last hh]
        have hrN : runNewBlocks st abi (b :: bs)
            = newBlocks st b ++ runNewBlocks st1 abi bs := by
          rw [runNewBlocks, hh]
        obtain ⟨ih1, ih2⟩ := ih st1
        constructor
        · rw [hrB, hrN, ih1, hinner1, List.foldl_append]
        · rw [hrB]
          exact Nat.le_trans (hinner1 ▸ le_foldl_max (newBlocks st b)
            st.inner_block_processed) ih2
      | error err =>
        have hst : st1 = st := handle_bridge_error_st hh
        have hrN : runNewBlocks st abi (b :: bs) = runNewBlocks st1 abi bs := by
          rw [runNewBlocks, hh]
        rw [hrB, hrN, hst]
        exact ih st

set_option maxRecDepth 200000

/-- Sanity check of the Keccak-256 embedding: the digest of the empty
message is the well-known constant
`c5d2460186f7233c927e7db2dcc703c0e500b653ca82273b7bfad8045d85a470`. -/
theorem keccak256_empty_digest : keccak256 [] =
    [0xc5, 0xd2, 0x46, 0x01, 0x86, 0xf7, 0x23, 0x3c,
     0x92, 0x7e, 0x7d, 0xb2, 0xdc, 0xc7, 0x03, 0xc0,
     0xe5, 0x00, 0xb6, 0x53, 0xca, 0x82, 0x27, 0x3b,
     0x7b, 0xfa, 0xd8, 0x04, 0x5d, 0x85, 0xa4, 0x70] := by decide

/-- The Keccak-256 digest of the bridge event signature bytes. -/
theorem keccak256_bridge_sig_digest : keccak256 bridge_sig =
    [0x98, 0xc3, 0x73, 0xa7, 0x2c, 0xdd, 0x14, 0x6d,
     0xd1, 0x04, 0x20, 0xba, 0x8d, 0xfa, 0x74, 0x73,
     0x4b, 0x09, 0x69, 0x93, 0x84, 0x04, 0x51, 0xe0,
     0x5f, 0x90, 0xee, 0x87, 0xb6, 0x8d, 0xd4, 0x76] := by decide

/-- The Keccak-256 digest of the settlement event signature bytes. -/
theorem keccak256_settled_sig_digest : keccak256 blob_index_settled_sig =
    [0xca, 0x49, 0xa2, 0xac, 0x74, 0x8a, 0x1b, 0xba,
     0xda, 0x6c, 0xe7, 0x1a, 0xc5, 0xd4, 0x48, 0xed,
     0x01, 0x1d, 0x24, 0x3e, 0x9c, 0x44, 0x25, 0x32,
     0xbc, 0xb7, 0x79, 0xb4, 0xec, 0x0b, 0x06, 0xd0] := by decide

/-- Claim C10: each topic function returns (as the sole filter topic) the
full 32-byte Keccak-256 digest of the UTF-8 bytes of its fixed signature,
wrapped verbatim by `H256::from` — in particular the digest has exactly 32
bytes, nothing is truncated, and the `try_into` succeeds.  Both functions
are pure, so two calls return identical topics; and the bridge and
settlement topics differ. -/
theorem claim_C10_topic_derivation :
    get_bridge_event_topic = some [H256.fromBytes (keccak256 bridge_sig)]
    ∧ get_blob_index_settled_topic
        = some [H256.fromBytes (keccak256 blob_index_settled_sig)]
    ∧ (keccak256 bridge_sig).length = 32
    ∧ (keccak256 blob_index_settled_sig).length = 32
    ∧ get_bridge_event_topic ≠ get_blob_index_settled_topic := by
  have hb := keccak256_bridge_sig_digest
  have hs := keccak256_settled_sig_digest
  refine ⟨?_, ?_, ?_, ?_, ?_⟩
  · simp only [get_bridge_event_topic, hb]
    decide
  · simp only [get_blob_index_settled_topic, hs]
    decide
  · rw [hb]
    rfl
  · rw [hs]
    rfl
  · simp only [get_bridge_event_topic, get_blob_index_settled_topic, hb, hs]
    decide

/-- The copy loop panics (`none`) whenever it has to write past the end of
the destination: the indices reach `idx + arr.length - 1`, so a nonempty
source longer than the remaining room always hits the out-of-bounds
branch. -/
theorem storeBytes_overflow :
    ∀ (arr bytes : List Nat) (idx : Nat), arr ≠ [] →
      bytes.length + 1 ≤ idx + arr.length → storeBytes arr bytes idx = none := by
  intro arr
  induction arr with
  | nil =>
    intro bytes idx h _
    exact absurd rfl h
  | cons b rest ih =>
    intro bytes idx _ hlen
    rw [storeBytes]
    by_cases hidx : idx < bytes.length
    · rw [if_pos hidx]
      cases rest with
      | nil =>
        exfalso
        simp only [List.length_cons, List.length_nil] at hlen
        omega
      | cons c t =>
        apply ih
        · intro hx
          cases hx
        · rw [List.length_set]
          simp only [List.length_cons] at hlen ⊢
          omega
    · rw [if_neg hidx]

/-- Claim C8 (code bug, evaluated): `From<String> for ContractAddress`
panics on *every* input — a string shorter than 64 bytes panics at the
`value[..64]` slice, and otherwise the loop copies 64 bytes into the
32-byte array and goes out of bounds at index 32 — so the conversion never
returns at all, let alone a parse error.  `EoAddress::parse`, the conversion
the binary actually uses, does satisfy the claim: a 40-hex-digit string —
with or without the `"0x"` prefix that fixed-hash strips — yields exactly
its 20 decoded bytes, and a stray character, an overlong string or an
underlong string is a hard error rather than a truncation or a padding. -/
theorem claim_C8_contract_address_panics :
    (∀ s : String, ContractAddress.fromString s = none)
    ∧ EoAddress.parse (EoAddress.new "1111111111111111111111111111111111111111")
        = .ok ⟨List.replicate 20 0x11⟩
    ∧ EoAddress.parse
        (EoAddress.new "0x1111111111111111111111111111111111111111")
        = .ok ⟨List.replicate 20 0x11⟩
    ∧ EoAddress.parse (EoAddress.new "zz")
        = .error (.invalidHexCharacter 'z' 0)
    ∧ EoAddress.parse
        (EoAddress.new "11223344556677889900aabbccddeeff00112233445566")
        = .error .invalidHexLength
    ∧ EoAddress.parse (EoAddress.new "1234") = .error .invalidHexLength := by
  refine ⟨?_, rfl, rfl, rfl, rfl, rfl⟩
  intro s
  rw [ContractAddress.fromString]
  by_cases h : 64 ≤ (strBytes s).length
  · rw [if_pos h]
    have hlen : ((strBytes s).take 64).length = 64 := by
      rw [List.length_take]
      omega
    have hne : (strBytes s).take 64 ≠ [] := by
      intro hx
      rw [hx] at hlen
      cases hlen
    rw [storeBytes_overflow _ _ _ hne
      (by simp only [hlen, List.length_replicate]; omega)]
    rfl
  · rw [if_neg h]

/-- Claim C9: de-duplication is only cross-batch.  From watermark 0, a batch
holding two decodable logs at the same block 7 — strictly above the
watermark, as the second conjunct shows — delivers *both* their decodings
(here distinguished by their payloads), because `block_processed` consults
the batch-start watermark throughout the loop and `last_processed_block` is
written only after the whole batch. -/
theorem claim_C9_within_batch_duplicates :
    EoServer.handle_bridge_event ⟨.number 0⟩
        [logAtData 7 [1], logAtData 7 [2]] dataAbi
      = (⟨.number 7⟩, .ok
          [⟨[⟨"data", .fixedBytes [1]⟩]⟩, ⟨[⟨"data", .fixedBytes [2]⟩]⟩])
    ∧ EoServer.block_processed ⟨.number 0⟩ 7 = false := ⟨rfl, rfl⟩
